import Mathlib

/-!
Verification of the storage layer of the parseable server
(src/server/src/s3.rs and src/server/src/storage.rs).

The remote object store is modelled as an association list from object keys
to stored documents; JSON documents (serde_json::Value) are modelled by the
inductive type `Json` below, with serialization modelled at the document
level (serde guarantees that printing and re-parsing a JSON value is the
identity, so a stored JSON blob is represented by the value itself).
Panics (unwrap/expect) are modelled by the distinguished result
`SResult.panicked`; AWS service errors by `SResult.err`.
-/

set_option maxHeartbeats 1000000

namespace Parseable

/-- Model of serde_json::Value restricted to the forms the code manipulates. -/
inductive Json where
  | null
  | str (s : String)
  | num (n : Nat)
  | arr (xs : List Json)
  | obj (fields : List (String × Json))

/-- serde_json Index<&str> on a Value: field of an object, Null otherwise
(serde_json returns Value::Null when the key is missing or the value is
not an object). From s3.rs line 448. -/
def Json.getKey (j : Json) (k : String) : Json :=
  match j with
  | .obj fields =>
    match fields.find? (fun p => p.1 == k) with
    | some p => p.2
    | none => .null
  | _ => .null

/-- Replace or insert a field of a JSON object field list. -/
def setField (k : String) (v : Json) : List (String × Json) → List (String × Json)
  | [] => [(k, v)]
  | (k0, v0) :: rest => if k0 == k then (k0, v) :: rest else (k0, v0) :: setField k v rest

/-- serde_json IndexMut<&str> followed by assignment
(parseable_metadata["stats"] = stats, s3.rs line 461): inserts into an
object, turns Null into a fresh object, panics otherwise (modelled by
none). -/
def Json.setKey (j : Json) (k : String) (v : Json) : Option Json :=
  match j with
  | .obj fields => some (.obj (setField k v fields))
  | .null => some (.obj [(k, v)])
  | _ => none

/-- Modelled from the spec: the opaque serializable Stats value type owned by
the stream registry ("serializable counters, default = zero", spec section 6);
its source file is not part of this repository snapshot. -/
structure Stats where
  size : Nat
deriving DecidableEq

/-- Stats::default() is the zeroed counters. -/
def Stats.zero : Stats := ⟨0⟩

/-- serde_json::to_value of Stats. -/
def Stats.toJson (s : Stats) : Json := .obj [("size", .num s.size)]

/-- serde_json::from_value::<Stats>. Fails unless the value is an object
carrying the numeric counter. -/
def Stats.fromJson (j : Json) : Option Stats :=
  match j with
  | .obj _ =>
    match j.getKey "size" with
    | .num n => some ⟨n⟩
    | _ => none
  | _ => none

/-- Modelled from the spec: the opaque serializable Alerts ruleset type
("opaque Alerts value type (serializable, default = empty ruleset)", spec
section 6); its source file is not part of this repository snapshot. -/
structure Alerts where
  alerts : List String
deriving DecidableEq

/-- Alerts::default() is the empty ruleset. -/
def Alerts.empty : Alerts := ⟨[]⟩

/-- Decode a JSON array of strings. -/
def strList : List Json → Option (List String)
  | [] => some []
  | .str s :: rest => (strList rest).map (fun l => s :: l)
  | _ => none

/-- serde_json::to_vec of Alerts (as a JSON document value). -/
def Alerts.toJson (a : Alerts) : Json := .obj [("alerts", .arr (a.alerts.map .str))]

/-- serde_json::from_slice::<Alerts> on an already-parsed JSON value. -/
def Alerts.fromJson (j : Json) : Option Alerts :=
  match j with
  | .obj _ =>
    match j.getKey "alerts" with
    | .arr xs => (strList xs).map Alerts.mk
    | _ => none
  | _ => none

/-- Modelled from the spec: the external arrow schema document type (datafusion
arrow Schema); only its serializability matters to this layer. -/
structure ArrowSchema where
  fields : List String
deriving DecidableEq

/-- serde_json::to_string of a Schema (as a JSON document value). -/
def ArrowSchema.toJson (s : ArrowSchema) : Json := .obj [("fields", .arr (s.fields.map .str))]

/-- serde_json::from_slice::<Schema> on an already-parsed JSON value. -/
def ArrowSchema.fromJson (j : Json) : Option ArrowSchema :=
  match j with
  | .obj _ =>
    match j.getKey "fields" with
    | .arr xs => (strList xs).map ArrowSchema.mk
    | _ => none
  | _ => none

/-- Body of a stored object: empty body (put_object with no body), a JSON
text document, or binary data (parquet objects). -/
inductive Content where
  | empty
  | jsonDoc (v : Json)
  | binary (size : Nat)

/-- Parsing an object body as JSON (first stage of serde_json::from_slice):
the empty body and binary bodies are not valid JSON. -/
def parseJsonContent : Content → Option Json
  | .jsonDoc v => some v
  | _ => none

/-- The remote object store: keys are unique, puts replace. -/
abbrev RemoteStore := List (String × Content)

/-- Generic association-list put (replace or insert at the front). -/
def alistPut {α : Type} (l : List (String × α)) (k : String) (v : α) : List (String × α) :=
  (k, v) :: l.filter (fun p => !(p.1 == k))

/-- Generic association-list lookup. -/
def alistGet {α : Type} (l : List (String × α)) (k : String) : Option α :=
  (l.find? (fun p => p.1 == k)).map (fun p => p.2)

/-- Generic association-list removal. -/
def alistRemove {α : Type} (l : List (String × α)) (k : String) : List (String × α) :=
  l.filter (fun p => !(p.1 == k))

/-- Number of entries stored under a key. -/
def alistCount {α : Type} (l : List (String × α)) (k : String) : Nat :=
  (l.filter (fun p => p.1 == k)).length

/-- S3 put_object: at most one object per key. -/
def putObject (store : RemoteStore) (key : String) (c : Content) : RemoteStore :=
  alistPut store key c

/-- S3 get_object body (none when the key holds no object). -/
def getObject (store : RemoteStore) (key : String) : Option Content :=
  alistGet store key

/-- Number of objects stored under a key. -/
def countKey (store : RemoteStore) (key : String) : Nat :=
  alistCount store key

/-- The presence-marker key (s3.rs line 222 and 206). -/
def schemaKey (stream : String) : String := stream ++ "/.schema"

/-- The metadata blob key (s3.rs line 241). -/
def parseableKey (stream : String) : String := stream ++ "/.parseable.json"

/-- The alert blob key (s3.rs line 284). -/
def alertKey (stream : String) : String := stream ++ "/.alert.json"

/-- AWS SDK service errors relevant here. -/
inductive AwsErr where
  | noSuchKey
  | other
deriving DecidableEq

/-- Result of a backend operation: success, service error, or a panic
(unwrap/expect firing). -/
inductive SResult (α : Type) where
  | ok (a : α)
  | err (e : AwsErr)
  | panicked
deriving DecidableEq

/-- serde serialization of ObjectStoreFormat::new() (s3.rs lines 48-60):
the initial metadata document carries only the format-version marker. -/
def objectStoreFormatNew : Json := .obj [("objectstore-format", .str "v1")]

/-- S3::_put_parseable_config (s3.rs lines 232-247). -/
def _put_parseable_config (store : RemoteStore) (stream : String) (body : Json) : RemoteStore :=
  putObject store (parseableKey stream) (.jsonDoc body)

/-- S3::_create_stream (s3.rs lines 214-230): put the empty presence marker,
then unconditionally put the serialized format document as the metadata blob.
(The local fs::create_dir_all call touches only the local filesystem and its
result is discarded; it does not affect the remote store.) -/
def _create_stream (store : RemoteStore) (stream : String) (format : Json) : RemoteStore :=
  _put_parseable_config (putObject store (schemaKey stream) .empty) stream format

/-- ObjectStorage::create_stream for S3 (s3.rs lines 400-406). -/
def create_stream (store : RemoteStore) (stream : String) : RemoteStore :=
  _create_stream store stream objectStoreFormatNew

/-- S3::_put_schema (s3.rs lines 201-212). -/
def _put_schema (store : RemoteStore) (stream : String) (body : Json) : RemoteStore :=
  putObject store (schemaKey stream) (.jsonDoc body)

/-- ObjectStorage::put_schema for S3 (s3.rs lines 389-398). -/
def put_schema (store : RemoteStore) (stream : String) (schema : ArrowSchema) : RemoteStore :=
  _put_schema store stream schema.toJson

/-- S3::_put_alerts (s3.rs lines 279-290). -/
def _put_alerts (store : RemoteStore) (stream : String) (body : Json) : RemoteStore :=
  putObject store (alertKey stream) (.jsonDoc body)

/-- ObjectStorage::put_alerts for S3 (s3.rs lines 414-423). -/
def put_alerts (store : RemoteStore) (stream : String) (alerts : Alerts) : RemoteStore :=
  _put_alerts store stream alerts.toJson

/-- S3::_get (s3.rs lines 304-315): get_object on the dot-prefixed resource
key; a missing key surfaces as the NoSuchKey service error. The key argument
is the already-formatted key (in the source it is built from the stream name
and resource name). -/
def _get (store : RemoteStore) (key : String) : SResult Content :=
  match getObject store key with
  | some c => .ok c
  | none => .err .noSuchKey

/-- ObjectStorage::get_schema for S3 (s3.rs lines 425-429): errors from _get
propagate; a body that exists but fails to parse becomes None via .ok(). -/
def get_schema (store : RemoteStore) (stream : String) : SResult (Option ArrowSchema) :=
  match _get store (schemaKey stream) with
  | .ok c => .ok ((parseJsonContent c).bind ArrowSchema.fromJson)
  | .err e => .err e
  | .panicked => .panicked

/-- ObjectStorage::get_alerts for S3 (s3.rs lines 431-441): a parse failure
degrades to the default via unwrap_or_default; NoSuchKey degrades to the
default; any other service error propagates. -/
def get_alerts (store : RemoteStore) (stream : String) : SResult Alerts :=
  match _get store (alertKey stream) with
  | .ok c => .ok (((parseJsonContent c).bind Alerts.fromJson).getD Alerts.empty)
  | .err .noSuchKey => .ok Alerts.empty
  | .err e => .err e
  | .panicked => .panicked

/-- ObjectStorage::get_stats for S3 (s3.rs lines 443-453): expect panics when
the metadata blob is not valid JSON; the stats field is then decoded with
unwrap_or_default. -/
def get_stats (store : RemoteStore) (stream : String) : SResult Stats :=
  match _get store (parseableKey stream) with
  | .ok c =>
    match parseJsonContent c with
    | none => .panicked
    | some v => .ok ((Stats.fromJson (v.getKey "stats")).getD Stats.zero)
  | .err e => .err e
  | .panicked => .panicked

/-- ObjectStorage::put_stats for S3 (s3.rs lines 455-466): read the metadata
blob (expect valid JSON), overwrite its stats field (panics if the document
is not an object or null), write the whole document back. -/
def put_stats (store : RemoteStore) (stream : String) (stats : Stats) : SResult RemoteStore :=
  match _get store (parseableKey stream) with
  | .ok c =>
    match parseJsonContent c with
    | none => .panicked
    | some v =>
      match v.setKey "stats" stats.toJson with
      | none => .panicked
      | some v2 => .ok (_put_parseable_config store stream v2)
  | .err e => .err e
  | .panicked => .panicked

/-- Character-list string matching used to model str prefix tests. -/
def isPfxOf : List Char → List Char → Bool
  | [], _ => true
  | _ :: _, [] => false
  | a :: as, b :: bs => a == b && isPfxOf as bs

/-- One page of a list_objects_v2 paginated listing; the Contents field is
absent (None) when the page carries no objects, as the S3 API does. -/
structure Page where
  contents : Option (List String)

/-- The keys under a given key range of the store. -/
def listKeysUnder (store : RemoteStore) (pfx : String) : List String :=
  (store.filter (fun p => isPfxOf pfx.data p.1.data)).map (fun p => p.1)

/-- The paginated listing of a key range, modelled as a single page (the
page boundary does not change which keys are listed): Contents is omitted
when no object matches. -/
def listPaginator (store : RemoteStore) (pfx : String) : List Page :=
  let objs := listKeysUnder store pfx
  [⟨if objs.isEmpty then none else some objs⟩]

/-- The page-collection loop of S3::_delete_stream (s3.rs lines 259-265):
page.contents.unwrap() panics (modelled by none) when a page has no
Contents field. -/
def collectObjects : List Page → Option (List String)
  | [] => some []
  | p :: ps =>
    match p.contents with
    | none => none
    | some objs => (collectObjects ps).map (fun rest => objs ++ rest)

/-- S3::_delete_stream (s3.rs lines 249-277): paginate the stream's key
range, unwrap each page's contents, then issue one batched delete. -/
def _delete_stream (store : RemoteStore) (stream : String) : SResult RemoteStore :=
  match collectObjects (listPaginator store (stream ++ "/")) with
  | none => .panicked
  | some objs => .ok (store.filter (fun p => !(objs.contains p.1)))

/-- ObjectStorage::delete_stream for S3 (s3.rs lines 408-412). -/
def delete_stream (store : RemoteStore) (stream : String) : SResult RemoteStore :=
  _delete_stream store stream

/-- The characters of a file name after its last dot separator. -/
def afterLastDot (cs : List Char) : List Char :=
  (cs.reverse.takeWhile (fun c => !(c = '.'))).reverse

/-- Rust Path::extension on a file name: the portion after the final dot;
none when there is no dot, or when the name begins with a dot and has no
other dot. -/
def extension (f : String) : Option String :=
  match f.data with
  | [] => none
  | c0 :: rest =>
    let body := if c0 = '.' then rest else c0 :: rest
    if body.contains '.' then some (String.mk (afterLastDot body)) else none

/-- Rust PathBuf::set_extension on a file name (storage.rs line 106):
replace the portion after the final dot, or append a dotted extension when
there is none. -/
def setExtension (name ext : String) : String :=
  match extension name with
  | none => name ++ "." ++ ext
  | some e => String.mk (name.data.take (name.data.length - e.data.length) ++ ext.data)

/-- str::replacen(filename, ".", "/", n) on characters: turn the first n
dots back into path separators. -/
def replacenDots : List Char → Nat → List Char
  | cs, 0 => cs
  | [], _ + 1 => []
  | c :: cs, n + 1 => if c = '.' then '/' :: replacenDots cs n else c :: replacenDots cs (n + 1)

/-- str::replacen(filename, ".", "/", 3) (storage.rs line 128). -/
def replacen3 (s : String) : String := String.mk (replacenDots s.data 3)

/-- str::replace(&uri, "/", ".") (storage.rs line 190): flatten every path
separator into the dot name separator. -/
def flattenSlashes (s : String) : String :=
  String.mk (s.data.map (fun c => if c = '/' then '.' else c))

/-- storage.rs line 45. -/
def LOCAL_SYNC_INTERVAL : Nat := 60

/-- storage.rs line 49: granularity in minutes of a storage time bucket. -/
def OBJECT_STORE_DATA_GRANULARITY : Nat := LOCAL_SYNC_INTERVAL / 60

/-- Model of chrono NaiveDateTime restricted to the accessors the code uses
(the date is kept opaque as its rendered form). -/
structure NaiveDateTime where
  date : String
  hour : Nat
  minute : Nat
  second : Nat
deriving DecidableEq

/-- Modelled from the spec: utils::date_to_prefix, whose source file is not
part of this repository snapshot ("deterministic name = date-prefix", spec
section 4.2). -/
def dateToPfx (d : String) : String := "date=" ++ d ++ "/"

/-- Modelled from the spec: utils::hour_to_prefix (spec section 4.2). -/
def hourToPfx (h : Nat) : String := "hour=" ++ toString h ++ "/"

/-- Modelled from the spec: utils::minute_to_prefix with a bucket of the
given granularity ("minute-bucket-prefix (bucket size = configured
granularity)", spec section 4.2); fails when the granularity is degenerate. -/
def minuteToPfx (m g : Nat) : Option String :=
  if g = 0 then none else some ("minute=" ++ toString (m / g * g) ++ "/")

/-- StorageDir::filename_by_time (storage.rs lines 186-193): flattened
date/hour/minute-bucket path, host identifier, fixed row-oriented suffix.
The host name (utils::hostname_unchecked) is passed explicitly; none models
the unwrap panic on a degenerate minute bucket. -/
def filename_by_time (host : String) (t : NaiveDateTime) : Option String :=
  match minuteToPfx t.minute OBJECT_STORE_DATA_GRANULARITY with
  | none => none
  | some mp =>
    let uri := dateToPfx t.date ++ hourToPfx t.hour ++ mp
    some (flattenSlashes uri ++ host ++ ".data.arrows")

/-- The core of StorageDir::arrow_files (storage.rs lines 204-226) on a
directory listing: files with the row-oriented extension, with the hot file
(the name produced by filename_by_time at the current instant) retained
out. -/
def arrowFilesOfList (files : List String) (hot : String) : List String :=
  (files.filter (fun f => extension f == some "arrows")).filter (fun f => !(f == hot))

/-- StorageDir::arrow_files (storage.rs lines 204-226): an unreadable or
missing directory (none) yields the empty listing. -/
def arrow_files (dir : Option (List String)) (hot : String) : List String :=
  match dir with
  | none => []
  | some files => arrowFilesOfList files hot

/-- The core of StorageDir::parquet_files on a directory listing. -/
def parquetFilesOfList (files : List String) : List String :=
  files.filter (fun f => extension f == some "parquet")

/-- StorageDir::parquet_files (storage.rs lines 228-236). -/
def parquet_files (dir : Option (List String)) : List String :=
  match dir with
  | none => []
  | some files => parquetFilesOfList files

/-- A decoded row batch (opaque record contents). -/
abbrev Record := List Nat

/-- A row-oriented local segment file as the arrow StreamReader sees it:
whether the stream header decodes (StreamReader::try_new succeeds), and the
per-record decode results. -/
structure ArrowSegment where
  headerOk : Bool
  rows : List (Except String Record)

/-- Contents of a local buffer file. -/
inductive FileData where
  | arrows (seg : ArrowSegment)
  | parquet (rows : List Record)

/-- The local buffer directory of one stream: file names to contents. -/
abbrev LocalDir := List (String × FileData)

def lookupFile (dir : LocalDir) (n : String) : Option FileData := alistGet dir n

def putFile (dir : LocalDir) (n : String) (d : FileData) : LocalDir := alistPut dir n d

def removeFile (dir : LocalDir) (n : String) : LocalDir := alistRemove dir n

def hasFile (dir : LocalDir) (n : String) : Bool := dir.any (fun p => p.1 == n)

def fileNames (dir : LocalDir) : List String := dir.map (fun p => p.1)

/-- Injected-failure oracles for the external world of the sync pass: local
filesystem operations and the backend upload, keyed by file name or object
key, plus the reported on-disk size of a file (fs metadata len, 0 when the
metadata call fails). -/
structure SyncEnv where
  openFails : String → Bool
  createFails : String → Bool
  writeFails : String → Bool
  removeFails : String → Bool
  uploadFails : String → Bool
  fileSize : String → Nat

/-- No injected local-filesystem failure. -/
def SyncEnv.fsOk (env : SyncEnv) : Prop :=
  (∀ n, env.openFails n = false) ∧ (∀ n, env.createFails n = false) ∧
    (∀ n, env.writeFails n = false) ∧ (∀ n, env.removeFails n = false)

/-- ObjectStorage::s3_sync error taxonomy (storage.rs lines 239-253). -/
inductive MoveDataError where
  | Open
  | Arrow
  | Parquet
  | ObjectStorag
  | Create
  | Delete
deriving DecidableEq

/-- One iteration of the conversion loop of ObjectStorage::s3_sync
(storage.rs lines 93-120): open the segment file (Open on failure), decode
the stream header (Arrow on failure — also when the bytes are not an arrow
stream), drop per-record decode failures with a log line, create the
columnar file (Create on failure; creation truncates, so a file exists even
if the subsequent writes fail), write and close the writer (Parquet on
failure), delete the source segment file (Delete on failure). The first
component is the directory afterward; the second the fatal error, if any. -/
def convertFile (env : SyncEnv) (dir : LocalDir) (n : String) : LocalDir × Option MoveDataError :=
  if env.openFails n then (dir, some .Open)
  else
    match lookupFile dir n with
    | some (.arrows seg) =>
      if seg.headerOk then
        if env.createFails (setExtension n "parquet") then (dir, some .Create)
        else if env.writeFails (setExtension n "parquet") then
          (putFile dir (setExtension n "parquet") (.parquet []), some .Parquet)
        else if env.removeFails n then
          (putFile (putFile dir (setExtension n "parquet") (.parquet []))
            (setExtension n "parquet") (.parquet (seg.rows.filterMap Except.toOption)),
            some .Delete)
        else
          (removeFile (putFile (putFile dir (setExtension n "parquet") (.parquet []))
            (setExtension n "parquet") (.parquet (seg.rows.filterMap Except.toOption))) n,
            none)
      else (dir, some .Arrow)
    | some (.parquet _) => (dir, some .Arrow)
    | none => (dir, some .Open)

/-- The conversion loop over the listed segment files; a fatal error aborts
the remainder. -/
def convertAll (env : SyncEnv) (dir : LocalDir) : List String → LocalDir × Option MoveDataError
  | [] => (dir, none)
  | n :: rest =>
    match convertFile env dir n with
    | (d, some e) => (d, some e)
    | (d, none) => convertAll env d rest

/-- The remote object key of an uploaded columnar file (storage.rs lines
122-129): the stream name, a path separator, and the file name with its
first three dots turned back into path separators. -/
def s3Key (stream n : String) : String := stream ++ "/" ++ replacen3 n

/-- State threaded through the upload loop: the directory, the performed
uploads as (object key, file name) pairs, and the accumulated uploaded
byte size of the stream. -/
structure UploadState where
  dir : LocalDir
  uploads : List (String × String)
  size : Nat

/-- One iteration of the upload loop of ObjectStorage::s3_sync (storage.rs
lines 122-145): derive the object key, upload (fatal ObjectStorag error on
failure), accumulate the file's size, then delete the local columnar file —
a deletion failure is only logged. -/
def uploadFile (env : SyncEnv) (stream : String) (st : UploadState) (n : String) :
    UploadState × Option MoveDataError :=
  if env.uploadFails (s3Key stream n) then (st, some .ObjectStorag)
  else if env.removeFails n then
    (⟨st.dir, st.uploads ++ [(s3Key stream n, n)], st.size + env.fileSize n⟩, none)
  else
    (⟨removeFile st.dir n, st.uploads ++ [(s3Key stream n, n)], st.size + env.fileSize n⟩, none)

/-- The upload loop over the listed columnar files; a fatal error aborts the
remainder. -/
def uploadAll (env : SyncEnv) (stream : String) (st : UploadState) :
    List String → UploadState × Option MoveDataError
  | [] => (st, none)
  | n :: rest =>
    match uploadFile env stream st n with
    | (st2, some e) => (st2, some e)
    | (st2, none) => uploadAll env stream st2 rest

/-- Result of the per-stream body of a sync pass. -/
structure StreamSyncResult where
  dir : LocalDir
  uploads : List (String × String)
  size : Nat
  err : Option MoveDataError

/-- The per-stream body of ObjectStorage::s3_sync (storage.rs lines 89-146):
list and convert the rotatable segment files, then list and upload the
columnar files. The hot file name is the one filename_by_time produces at
the current instant. -/
def syncStream (env : SyncEnv) (stream : String) (dir : LocalDir) (hot : String) :
    StreamSyncResult :=
  match convertAll env dir (arrowFilesOfList (fileNames dir) hot) with
  | (d, some e) => ⟨d, [], 0, some e⟩
  | (d, none) =>
    let r := uploadAll env stream ⟨d, [], 0⟩ (parquetFilesOfList (fileNames d))
    ⟨r.1.dir, r.1.uploads, r.1.size, r.2⟩

/-! Helper lemmas about the association-list store operations. -/

theorem key_append_ne (s : String) {a b : String} (h : ¬ a.data = b.data) :
    ¬ s ++ a = s ++ b := by
  intro he
  apply h
  have hd := congrArg String.data he
  rw [String.data_append, String.data_append] at hd
  exact (List.append_right_inj s.data).mp hd

theorem schemaKey_ne_parseableKey (stream : String) :
    ¬ schemaKey stream = parseableKey stream :=
  key_append_ne stream (by decide)

theorem alistGet_put_self {α : Type} (l : List (String × α)) (k : String) (v : α) :
    alistGet (alistPut l k v) k = some v := by
  simp [alistGet, alistPut, List.find?_cons_of_pos]

theorem find?_filter_ne {α : Type} (l : List (String × α)) {k k' : String} (h : ¬ k' = k) :
    (l.filter (fun p => !(p.1 == k))).find? (fun p => p.1 == k') =
      l.find? (fun p => p.1 == k') := by
  have hk : ¬ k = k' := fun he => h he.symm
  induction l with
  | nil => rfl
  | cons p rest ih =>
    by_cases hp : p.1 = k
    · have hk' : ¬ p.1 = k' := by rw [hp]; exact hk
      simp [List.filter_cons, hp, List.find?_cons, hk', hk, h, ih]
    · by_cases hq : p.1 = k'
      · simp [List.filter_cons, hp, List.find?_cons, hq, hk, h]
      · simp [List.filter_cons, hp, List.find?_cons, hq, hk, h, ih]

theorem alistGet_put_ne {α : Type} (l : List (String × α)) {k k' : String} (v : α)
    (h : ¬ k' = k) : alistGet (alistPut l k v) k' = alistGet l k' := by
  have hk : ¬ k = k' := fun he => h he.symm
  simp [alistGet, alistPut, List.find?_cons, hk, find?_filter_ne l h]

theorem alistGet_remove_ne {α : Type} (l : List (String × α)) {k k' : String}
    (h : ¬ k' = k) : alistGet (alistRemove l k) k' = alistGet l k' := by
  simp [alistGet, alistRemove, find?_filter_ne l h]

theorem alistGet_remove_self {α : Type} (l : List (String × α)) (k : String) :
    alistGet (alistRemove l k) k = none := by
  unfold alistGet alistRemove
  rw [List.find?_eq_none.mpr]
  · rfl
  · intro p hp
    have := List.of_mem_filter hp
    simpa using this

theorem filter_key_of_filter_not {α : Type} (l : List (String × α)) (k : String) :
    (l.filter (fun p => !(p.1 == k))).filter (fun p => p.1 == k) = [] := by
  induction l with
  | nil => rfl
  | cons p rest ih =>
    by_cases hp : p.1 = k
    · simp [List.filter_cons, hp, ih]
    · simp [List.filter_cons, hp, ih]

theorem filter_filter_ne {α : Type} (l : List (String × α)) {k k' : String} (h : ¬ k' = k) :
    (l.filter (fun p => !(p.1 == k))).filter (fun p => p.1 == k') =
      l.filter (fun p => p.1 == k') := by
  have hk : ¬ k = k' := fun he => h he.symm
  induction l with
  | nil => rfl
  | cons p rest ih =>
    by_cases hp : p.1 = k
    · have hk' : ¬ p.1 = k' := by rw [hp]; exact hk
      simp [List.filter_cons, hp, hk', hk, h, ih]
    · by_cases hq : p.1 = k'
      · simp [List.filter_cons, hp, hq, hk, h, ih]
      · simp [List.filter_cons, hp, hq, hk, h, ih]

theorem alistCount_put_self {α : Type} (l : List (String × α)) (k : String) (v : α) :
    alistCount (alistPut l k v) k = 1 := by
  simp [alistCount, alistPut, List.filter_cons, filter_key_of_filter_not]

theorem alistCount_put_ne {α : Type} (l : List (String × α)) {k k' : String} (v : α)
    (h : ¬ k' = k) : alistCount (alistPut l k v) k' = alistCount l k' := by
  have hk : ¬ k = k' := fun he => h he.symm
  simp [alistCount, alistPut, List.filter_cons, hk, filter_filter_ne l h]

/-! Helper lemmas about JSON field update. -/

theorem find?_setField_self (k : String) (v : Json) (fs : List (String × Json)) :
    ((setField k v fs).find? (fun p => p.1 == k)).map (fun p => p.2) = some v := by
  induction fs with
  | nil => simp [setField, List.find?_cons]
  | cons p rest ih =>
    by_cases hp : p.1 = k
    · simp [setField, hp, List.find?_cons]
    · simp [setField, hp, List.find?_cons, ih]

theorem find?_setField_ne {k k' : String} (h : ¬ k' = k) (v : Json)
    (fs : List (String × Json)) :
    (setField k v fs).find? (fun p => p.1 == k') = fs.find? (fun p => p.1 == k') := by
  have hk : ¬ k = k' := fun he => h he.symm
  induction fs with
  | nil => simp [setField, List.find?_cons, hk]
  | cons p rest ih =>
    obtain ⟨a, b⟩ := p
    by_cases hp : a = k
    · have hk' : ¬ a = k' := by rw [hp]; exact hk
      simp [setField, hp, List.find?_cons, hk', hk, h]
    · by_cases hq : a = k'
      · simp [setField, hp, List.find?_cons, hq, hk, h]
      · simp [setField, hp, List.find?_cons, hq, hk, h, ih]

theorem getKey_setKey_self {j j2 : Json} {k : String} {v : Json}
    (h : j.setKey k v = some j2) : j2.getKey k = v := by
  cases j with
  | obj fs =>
    simp [Json.setKey] at h
    subst h
    have := find?_setField_self k v fs
    simp [Json.getKey]
    cases hf : (setField k v fs).find? (fun p => p.1 == k) with
    | none => rw [hf] at this; simp at this
    | some p => rw [hf] at this; simp at this; simp [this]
  | null =>
    simp [Json.setKey] at h
    subst h
    simp [Json.getKey, List.find?_cons]
  | str s => simp [Json.setKey] at h
  | num n => simp [Json.setKey] at h
  | arr xs => simp [Json.setKey] at h

theorem getKey_setKey_ne {j j2 : Json} {k k' : String} {v : Json}
    (h : j.setKey k v = some j2) (hne : ¬ k' = k) : j2.getKey k' = j.getKey k' := by
  cases j with
  | obj fs =>
    simp [Json.setKey] at h
    subst h
    simp [Json.getKey, find?_setField_ne hne]
  | null =>
    simp [Json.setKey] at h
    subst h
    have hk : ¬ k = k' := fun he => hne he.symm
    simp [Json.getKey, List.find?_cons, hk]
  | str s => simp [Json.setKey] at h
  | num n => simp [Json.setKey] at h
  | arr xs => simp [Json.setKey] at h

theorem Stats.fromJson_toJson (s : Stats) : Stats.fromJson s.toJson = some s := rfl

/-! Claim theorems about the remote blob operations. -/

/-- Claim C1, counterexample: on stream weblog with recorded stats size 5,
a second create_stream call resets get_stats to the zero default, so the
recorded stats are not left unchanged. -/
def c1Store1 : RemoteStore :=
  match put_stats (create_stream [] "weblog") "weblog" ⟨5⟩ with
  | .ok s => s
  | _ => []

theorem create_stream_twice_resets_stats_cex :
    get_stats c1Store1 "weblog" = .ok ⟨5⟩ ∧
    get_stats (create_stream c1Store1 "weblog") "weblog" = .ok ⟨0⟩ ∧
    ¬ get_stats (create_stream c1Store1 "weblog") "weblog" = get_stats c1Store1 "weblog" := by
  decide

/-- Claim C1 (amended): calling create_stream when a metadata blob already
exists leaves exactly one presence marker, but unconditionally overwrites
the metadata blob with the initial format document, so previously recorded
stats are reset to the zero default rather than preserved. -/
theorem create_stream_twice_overwrite_metadata (store : RemoteStore) (stream : String) :
    countKey (create_stream store stream) (schemaKey stream) = 1 ∧
    getObject (create_stream store stream) (parseableKey stream) =
      some (.jsonDoc objectStoreFormatNew) ∧
    get_stats (create_stream store stream) stream = .ok Stats.zero := by
  have hne := schemaKey_ne_parseableKey stream
  have hget : getObject (create_stream store stream) (parseableKey stream) =
      some (.jsonDoc objectStoreFormatNew) :=
    alistGet_put_self _ _ _
  refine ⟨?_, hget, ?_⟩
  · unfold create_stream _create_stream _put_parseable_config countKey putObject
    rw [alistCount_put_ne _ _ hne]
    exact alistCount_put_self _ _ _
  · simp [get_stats, _get, getObject] at hget ⊢
    rw [hget]
    rfl

/-- Claim C2, counterexample: with the schema blob key absent from the
remote store, get_schema surfaces the NoSuchKey service error instead of
an Ok result carrying no schema. -/
theorem get_schema_absent_blob_cex :
    ¬ get_schema ([] : RemoteStore) "logs" = .ok none := by
  decide

/-- Claim C2 (amended): when the schema blob key is absent from the remote
store, get_schema propagates the missing-key error; it returns an Ok result
carrying no schema when the blob exists but its content fails to parse as a
schema, such as the empty presence marker written by create_stream. -/
theorem get_schema_absent_vs_unparsable (store : RemoteStore) (stream : String) :
    (getObject store (schemaKey stream) = none → get_schema store stream = .err .noSuchKey) ∧
    (getObject store (schemaKey stream) = some .empty → get_schema store stream = .ok none) := by
  constructor <;> intro h <;> simp [get_schema, _get, h, parseJsonContent]

/-- Claim C2 witness: the amended behavior at a concrete store. -/
theorem get_schema_absent_vs_unparsable_witness :
    get_schema ([] : RemoteStore) "logs" = .err .noSuchKey ∧
    get_schema (create_stream [] "logs") "logs" = .ok none :=
  ⟨(get_schema_absent_vs_unparsable [] "logs").1 rfl,
   (get_schema_absent_vs_unparsable (create_stream [] "logs") "logs").2 rfl⟩

/-- Claim C7: with an existing metadata blob, put_stats followed by
get_stats returns the same numeric counters exactly, and put_stats rewrites
only the stats field of the metadata document, preserving every other
field of the whole document. -/
theorem put_get_stats_roundtrip (store : RemoteStore) (stream : String) (v v2 : Json)
    (st : Stats) (s2 : RemoteStore)
    (hmeta : getObject store (parseableKey stream) = some (.jsonDoc v))
    (hset : v.setKey "stats" st.toJson = some v2)
    (hput : put_stats store stream st = .ok s2) :
    get_stats s2 stream = .ok st ∧
    getObject s2 (parseableKey stream) = some (.jsonDoc v2) ∧
    ∀ k, ¬ k = "stats" → v2.getKey k = v.getKey k := by
  have hs2 : s2 = _put_parseable_config store stream v2 := by
    simp [put_stats, _get, hmeta, parseJsonContent, hset] at hput
    exact hput.symm
  subst hs2
  have hget : getObject (_put_parseable_config store stream v2) (parseableKey stream) =
      some (.jsonDoc v2) := alistGet_put_self _ _ _
  refine ⟨?_, hget, fun k hk => getKey_setKey_ne hset hk⟩
  simp [get_stats, _get, hget, parseJsonContent, getKey_setKey_self hset,
    Stats.fromJson_toJson]

/-- Claim C7 witness: concrete round trip on stream weblog over the freshly
created metadata document, with the format-version field preserved. -/
def c7V2 : Json :=
  match objectStoreFormatNew.setKey "stats" (Stats.toJson ⟨1024⟩) with
  | some j => j
  | none => .null

def c7Store2 : RemoteStore :=
  match put_stats (create_stream [] "weblog") "weblog" ⟨1024⟩ with
  | .ok s => s
  | _ => []

theorem put_get_stats_roundtrip_witness :
    get_stats c7Store2 "weblog" = .ok ⟨1024⟩ ∧
    getObject c7Store2 (parseableKey "weblog") = some (.jsonDoc c7V2) ∧
    c7V2.getKey "objectstore-format" = objectStoreFormatNew.getKey "objectstore-format" := by
  have h := put_get_stats_roundtrip (create_stream [] "weblog") "weblog"
    objectStoreFormatNew c7V2 ⟨1024⟩ c7Store2 rfl rfl rfl
  exact ⟨h.1, h.2.1, h.2.2 "objectstore-format" (by decide)⟩

/-- Claim C8: get_alerts returns the empty default ruleset, not an error,
both when the alert blob is absent and when its content fails to parse as
an alert ruleset. -/
theorem get_alerts_defaults_on_absent_or_corrupt (store : RemoteStore) (stream : String) :
    (getObject store (alertKey stream) = none → get_alerts store stream = .ok Alerts.empty) ∧
    (∀ c, getObject store (alertKey stream) = some c →
      (parseJsonContent c).bind Alerts.fromJson = none →
      get_alerts store stream = .ok Alerts.empty) := by
  constructor
  · intro h
    simp [get_alerts, _get, h]
  · intro c h hc
    simp [get_alerts, _get, h, hc]

/-- Claim C8 witness: absent blob, and a present but unparsable (empty)
blob, both at concrete stores. -/
theorem get_alerts_defaults_witness :
    get_alerts ([] : RemoteStore) "logs" = .ok Alerts.empty ∧
    get_alerts [(alertKey "logs", Content.empty)] "logs" = .ok Alerts.empty :=
  ⟨(get_alerts_defaults_on_absent_or_corrupt [] "logs").1 rfl,
   (get_alerts_defaults_on_absent_or_corrupt [(alertKey "logs", Content.empty)] "logs").2
     Content.empty rfl rfl⟩

/-- Claim C10: delete_stream panics rather than returning Ok or a typed
error when the paginated listing of the stream's key range yields a page
with no Contents field — here, the listing of stream logs in a store whose
only objects live under another stream. -/
theorem delete_stream_panics_on_empty_listing :
    delete_stream [("metrics/.schema", Content.empty)] "logs" = .panicked := rfl

/-! Helper lemmas about local directory state and file names. -/

theorem strData_mk (l : List Char) : (String.mk l).data = l := rfl

theorem hasFile_remove_ne (d : LocalDir) {n F : String} (h : ¬ F = n) :
    hasFile (removeFile d n) F = hasFile d F := by
  have hnF : ¬ n = F := fun he => h he.symm
  unfold hasFile removeFile alistRemove
  induction d with
  | nil => rfl
  | cons p rest ih =>
    by_cases hp : p.1 = n
    · simp [List.filter_cons, hp, List.any_cons, hnF, h, ih]
    · simp [List.filter_cons, hp, List.any_cons, ih]

theorem hasFile_of_mem (d : LocalDir) {F : String} (h : F ∈ fileNames d) :
    hasFile d F = true := by
  unfold hasFile
  rw [List.any_eq_true]
  obtain ⟨p, hp, hpf⟩ := List.mem_map.mp h
  exact ⟨p, hp, by simp [hpf]⟩

theorem lookupFile_remove_ne (d : LocalDir) {n m : String} (h : ¬ n = m) :
    lookupFile (removeFile d m) n = lookupFile d n := alistGet_remove_ne d h

theorem lookupFile_remove_self (d : LocalDir) (m : String) :
    lookupFile (removeFile d m) m = none := alistGet_remove_self d m

theorem lookupFile_put_self (d : LocalDir) (n : String) (x : FileData) :
    lookupFile (putFile d n x) n = some x := alistGet_put_self d n x

theorem lookupFile_put_ne (d : LocalDir) {n m : String} (x : FileData) (h : ¬ n = m) :
    lookupFile (putFile d m x) n = lookupFile d n := alistGet_put_ne d x h

theorem replacenDots_zero (cs : List Char) : replacenDots cs 0 = cs := by
  cases cs <;> rfl

theorem setExtension_parquet_ne {n : String} (h : extension n = some "arrows") :
    ¬ setExtension n "parquet" = n := by
  intro he
  have hd := congrArg String.data he
  simp only [setExtension, h, strData_mk] at hd
  have hlen := congrArg List.length hd
  rw [List.length_append, List.length_take] at hlen
  have h7 : ("parquet" : String).data.length = 7 := by decide
  have h6 : ("arrows" : String).data.length = 6 := by decide
  rw [h7, h6, Nat.min_eq_left (Nat.sub_le _ _)] at hlen
  omega

theorem replacenDots_step (l rest : List Char) (n : Nat) (h : '.' ∉ l) :
    replacenDots (l ++ '.' :: rest) (n + 1) = l ++ '/' :: replacenDots rest n := by
  induction l with
  | nil => simp [replacenDots]
  | cons c cs ih =>
    rw [List.mem_cons, not_or] at h
    obtain ⟨h1, h2⟩ := h
    have hc : ¬ c = '.' := fun he => h1 he.symm
    simp [replacenDots, hc, ih h2]

/-! The upload loop: keys and failure behavior. -/

theorem uploadAll_fail_keeps (env : SyncEnv) (stream : String) :
    ∀ (files : List String) (st : UploadState) (F : String),
      hasFile st.dir F = true → F ∈ files → env.uploadFails (s3Key stream F) = true →
      ((uploadAll env stream st files).2).isSome = true ∧
      hasFile ((uploadAll env stream st files).1).dir F = true := by
  intro files
  induction files with
  | nil => intro st F _ hmem _; exact absurd hmem (List.not_mem_nil F)
  | cons n rest ih =>
    intro st F hhas hmem hfail
    cases hn : env.uploadFails (s3Key stream n) with
    | true => simp [uploadAll, uploadFile, hn, hhas]
    | false =>
      have hnF : ¬ n = F := by
        intro he
        have hf := hfail
        rw [← he, hn] at hf
        exact Bool.false_ne_true hf
      have hmem' : F ∈ rest := by
        cases List.mem_cons.mp hmem with
        | inl h => exact absurd h.symm hnF
        | inr h => exact h
      cases hr : env.removeFails n with
      | true =>
        simp only [uploadAll, uploadFile, hn, hr, Bool.false_eq_true, if_false, if_true]
        exact ih _ F hhas hmem' hfail
      | false =>
        have hhas2 : hasFile (removeFile st.dir n) F = true := by
          rw [hasFile_remove_ne st.dir (fun he => hnF he.symm)]; exact hhas
        simp only [uploadAll, uploadFile, hn, hr, Bool.false_eq_true, if_false, if_true]
        exact ih _ F hhas2 hmem' hfail

theorem uploadAll_uploads_shape (env : SyncEnv) (stream : String) :
    ∀ (files : List String) (st : UploadState), ∃ done : List String,
      ((uploadAll env stream st files).1).uploads
        = st.uploads ++ done.map (fun n => (s3Key stream n, n)) := by
  intro files
  induction files with
  | nil => intro st; exact ⟨[], by simp [uploadAll]⟩
  | cons n rest ih =>
    intro st
    cases hn : env.uploadFails (s3Key stream n) with
    | true => exact ⟨[], by simp [uploadAll, uploadFile, hn]⟩
    | false =>
      cases hr : env.removeFails n with
      | true =>
        obtain ⟨done, hdone⟩ :=
          ih ⟨st.dir, st.uploads ++ [(s3Key stream n, n)], st.size + env.fileSize n⟩
        refine ⟨n :: done, ?_⟩
        simp only [uploadAll, uploadFile, hn, hr, Bool.false_eq_true, if_false, if_true]
        rw [hdone]
        simp [List.append_assoc]
      | false =>
        obtain ⟨done, hdone⟩ :=
          ih ⟨removeFile st.dir n, st.uploads ++ [(s3Key stream n, n)],
            st.size + env.fileSize n⟩
        refine ⟨n :: done, ?_⟩
        simp only [uploadAll, uploadFile, hn, hr, Bool.false_eq_true, if_false, if_true]
        rw [hdone]
        simp [List.append_assoc]

/-! The conversion loop: error propagation and per-record dropping. -/

/-- The fatal-error component of one conversion iteration, as a function of
the oracles and the looked-up file contents only. -/
def convertOutcome (env : SyncEnv) (n : String) : Option FileData → Option MoveDataError
  | some (.arrows seg) =>
    if env.openFails n then some .Open
    else if seg.headerOk then
      if env.createFails (setExtension n "parquet") then some .Create
      else if env.writeFails (setExtension n "parquet") then some .Parquet
      else if env.removeFails n then some .Delete
      else none
    else some .Arrow
  | some (.parquet _) => if env.openFails n then some .Open else some .Arrow
  | none => some .Open

theorem convertFile_snd (env : SyncEnv) (dir : LocalDir) (n : String) :
    (convertFile env dir n).2 = convertOutcome env n (lookupFile dir n) := by
  unfold convertFile convertOutcome
  cases ho : env.openFails n with
  | true =>
    cases hl : lookupFile dir n with
    | none => simp [ho]
    | some fd => cases fd <;> simp [ho]
  | false =>
    cases hl : lookupFile dir n with
    | none => simp [ho]
    | some fd =>
      cases fd with
      | parquet rows => simp [ho]
      | arrows seg =>
        cases hh : seg.headerOk with
        | false => simp [ho, hh]
        | true =>
          cases hc : env.createFails (setExtension n "parquet") with
          | true => simp [ho, hh, hc]
          | false =>
            cases hw : env.writeFails (setExtension n "parquet") with
            | true => simp [ho, hh, hc, hw]
            | false => cases hr : env.removeFails n <;> simp [ho, hh, hc, hw, hr]

theorem convertFile_ok_inversion (env : SyncEnv) {d d' : LocalDir} {m : String}
    (hm : convertFile env d m = (d', none)) :
    ∃ seg : ArrowSegment,
      lookupFile d m = some (.arrows seg) ∧
      d' = removeFile (putFile (putFile d (setExtension m "parquet") (.parquet []))
        (setExtension m "parquet") (.parquet (seg.rows.filterMap Except.toOption))) m := by
  cases ho : env.openFails m with
  | true => simp [convertFile, ho] at hm
  | false =>
    cases hl : lookupFile d m with
    | none => simp [convertFile, ho, hl] at hm
    | some fd =>
      cases fd with
      | parquet rows => simp [convertFile, ho, hl] at hm
      | arrows seg =>
        cases hh : seg.headerOk with
        | false => simp [convertFile, ho, hl, hh] at hm
        | true =>
          cases hc : env.createFails (setExtension m "parquet") with
          | true => simp [convertFile, ho, hl, hh, hc] at hm
          | false =>
            cases hw : env.writeFails (setExtension m "parquet") with
            | true => simp [convertFile, ho, hl, hh, hc, hw] at hm
            | false =>
              cases hr : env.removeFails m with
              | true => simp [convertFile, ho, hl, hh, hc, hw, hr] at hm
              | false =>
                simp only [convertFile, ho, hl, hh, hc, hw, hr, Bool.false_eq_true,
                  if_false, if_true, Prod.mk.injEq, and_true] at hm
                exact ⟨seg, rfl, hm.symm⟩

theorem convertFile_err_step (env : SyncEnv) {d d' : LocalDir} {m : String}
    (hm : convertFile env d m = (d', none)) (n : String)
    (hn : ((convertFile env d n).2).isSome = true) :
    ((convertFile env d' n).2).isSome = true := by
  obtain ⟨seg, hlm, hd'⟩ := convertFile_ok_inversion env hm
  rw [convertFile_snd] at hn ⊢
  by_cases hnm : n = m
  · subst hnm
    have hl' : lookupFile d' n = none := by
      rw [hd', lookupFile_remove_self]
    rw [hl']
    cases ho : env.openFails n <;> simp [convertOutcome, ho]
  · by_cases hnp : n = setExtension m "parquet"
    · have hpm : ¬ setExtension m "parquet" = m := fun he => hnm (hnp.trans he)
      have hl' : lookupFile d' n
          = some (.parquet (seg.rows.filterMap Except.toOption)) := by
        rw [hd', hnp, lookupFile_remove_ne _ hpm, lookupFile_put_self]
      rw [hl']
      cases ho : env.openFails n <;> simp [convertOutcome, ho]
    · have hl' : lookupFile d' n = lookupFile d n := by
        rw [hd', lookupFile_remove_ne _ hnm, lookupFile_put_ne _ _ hnp,
          lookupFile_put_ne _ _ hnp]
      rw [hl']
      exact hn

theorem convertAll_err_of_file_err (env : SyncEnv) :
    ∀ (ns : List String) (dir : LocalDir) (n : String), n ∈ ns →
      ((convertFile env dir n).2).isSome = true →
      ((convertAll env dir ns).2).isSome = true := by
  intro ns
  induction ns with
  | nil => intro dir n hmem _; exact absurd hmem (List.not_mem_nil n)
  | cons m rest ih =>
    intro dir n hmem hn
    rcases hm : convertFile env dir m with ⟨d, o⟩
    cases o with
    | some e => simp [convertAll, hm]
    | none =>
      have hnm : ¬ n = m := by
        intro he
        rw [he, hm] at hn
        simp at hn
      have hmem' : n ∈ rest := by
        cases List.mem_cons.mp hmem with
        | inl h => exact absurd h hnm
        | inr h => exact h
      have hn' := convertFile_err_step env hm n hn
      simp only [convertAll, hm]
      exact ih d n hmem' hn'

theorem convertFile_bad_header (env : SyncEnv) {dir : LocalDir} {n : String}
    {seg : ArrowSegment} (ho : env.openFails n = false)
    (hl : lookupFile dir n = some (.arrows seg)) (hb : seg.headerOk = false) :
    convertFile env dir n = (dir, some .Arrow) := by
  simp [convertFile, ho, hl, hb]

theorem filterMap_toOption_comp_ok (l : List Record) :
    List.filterMap
      (Except.toOption ∘ (Except.ok : Record → Except String Record)) l = l := by
  induction l with
  | nil => rfl
  | cons r rest ih => simp [List.filterMap_cons, Except.toOption, ih]

theorem filterMap_records (pre post : List Record) (msg : String) :
    ((pre.map (Except.ok : Record → Except String Record)
        ++ .error msg :: post.map Except.ok).filterMap Except.toOption)
      = pre ++ post := by
  rw [List.filterMap_append, List.filterMap_cons]
  simp [Except.toOption, List.filterMap_map, filterMap_toOption_comp_ok]

/-! Claim theorems about the sync pass. -/

/-- Claim C3: during a sync pass, a local columnar file is deleted only
after its upload succeeds — if the upload of file F fails, the pass aborts
with an error and the local columnar file for F still exists afterward. -/
theorem upload_failure_preserves_local_parquet (env : SyncEnv) (stream : String)
    (dir : LocalDir) (hot F : String)
    (hconv : (convertAll env dir (arrowFilesOfList (fileNames dir) hot)).2 = none)
    (hF : F ∈ parquetFilesOfList
      (fileNames (convertAll env dir (arrowFilesOfList (fileNames dir) hot)).1))
    (hfail : env.uploadFails (s3Key stream F) = true) :
    ((syncStream env stream dir hot).err).isSome = true ∧
    hasFile (syncStream env stream dir hot).dir F = true := by
  rcases hcv : convertAll env dir (arrowFilesOfList (fileNames dir) hot) with ⟨d, o⟩
  rw [hcv] at hconv hF
  subst hconv
  simp only [syncStream, hcv]
  have hhas : hasFile d F = true :=
    hasFile_of_mem d (List.mem_of_mem_filter hF)
  exact uploadAll_fail_keeps env stream (parquetFilesOfList (fileNames d)) ⟨d, [], 0⟩ F
    hhas hF hfail

def tEnvUpFail : SyncEnv :=
  ⟨fun _ => false, fun _ => false, fun _ => false, fun _ => false, fun _ => true, fun _ => 0⟩

def tEnvOk : SyncEnv :=
  ⟨fun _ => false, fun _ => false, fun _ => false, fun _ => false, fun _ => false, fun _ => 0⟩

def tDirParquet : LocalDir := [("date=a.hour=1.minute=2.host.data.parquet", .parquet [])]

/-- Claim C3 witness: a concrete failing upload leaves the columnar file in
place and aborts the pass. -/
theorem upload_failure_preserves_local_parquet_witness :
    ((syncStream tEnvUpFail "s" tDirParquet "h").err).isSome = true ∧
    hasFile (syncStream tEnvUpFail "s" tDirParquet "h").dir
      "date=a.hour=1.minute=2.host.data.parquet" = true :=
  upload_failure_preserves_local_parquet tEnvUpFail "s" tDirParquet "h"
    "date=a.hour=1.minute=2.host.data.parquet" rfl (by decide) rfl

/-- Claim C4: arrow_files returns each file carrying the row-oriented
extension exactly once, except that it never includes the hot file — the
file whose name filename_by_time produces at the current instant; an
unreadable or non-existent directory yields an empty result, not an
error. -/
theorem arrow_files_complete_except_hot :
    (∀ hot, arrow_files none hot = []) ∧
    (∀ (dir : Option (List String)) (host : String) (now : NaiveDateTime) (hot : String),
      filename_by_time host now = some hot → hot ∉ arrow_files dir hot) ∧
    (∀ (files : List String) (hot f : String), files.Nodup → f ∈ files → ¬ f = hot →
      extension f = some "arrows" → (arrow_files (some files) hot).count f = 1) := by
  refine ⟨fun hot => rfl, ?_, ?_⟩
  · intro dir host now hot hhot
    cases dir with
    | none => simp [arrow_files]
    | some files => simp [arrow_files, arrowFilesOfList, List.mem_filter]
  · intro files hot f hnd hmem hne hext
    unfold arrow_files arrowFilesOfList
    rw [List.count_filter (by simp [hne]), List.count_filter (by simp [hext])]
    exact List.count_eq_one_of_mem hnd hmem

/-- Claim C4 witness: a concrete directory listing containing the hot file
and ordinary row-oriented files. -/
theorem arrow_files_complete_except_hot_witness :
    "date=2022-10-01.hour=5.minute=30.myhost.data.arrows" ∉
      arrow_files (some ["a.data.arrows", "b.data.arrows",
        "date=2022-10-01.hour=5.minute=30.myhost.data.arrows", "c.data.parquet"])
        "date=2022-10-01.hour=5.minute=30.myhost.data.arrows" ∧
    (arrow_files (some ["a.data.arrows", "b.data.arrows",
        "date=2022-10-01.hour=5.minute=30.myhost.data.arrows", "c.data.parquet"])
        "date=2022-10-01.hour=5.minute=30.myhost.data.arrows").count "a.data.arrows" = 1 :=
  ⟨arrow_files_complete_except_hot.2.1 _ "myhost" ⟨"2022-10-01", 5, 30, 7⟩ _ (by decide),
   arrow_files_complete_except_hot.2.2 _ _ "a.data.arrows" (by decide) (by decide)
     (by decide) (by decide)⟩

/-- Claim C5: every upload the sync pass performs uses the remote object key
built from the stream name, a path separator, and the local filename with
its first three dots turned back into path separators; and on a flattened
hierarchical name that replacement reconstructs the hierarchical path. -/
theorem sync_upload_key_scheme :
    (∀ (env : SyncEnv) (stream : String) (dir : LocalDir) (hot : String)
      (p : String × String), p ∈ (syncStream env stream dir hot).uploads →
      p.1 = stream ++ "/" ++ replacen3 p.2) ∧
    (∀ a b c rest : String, '.' ∉ a.data → '.' ∉ b.data → '.' ∉ c.data →
      replacen3 (a ++ "." ++ b ++ "." ++ c ++ "." ++ rest)
        = a ++ "/" ++ b ++ "/" ++ c ++ "/" ++ rest) := by
  constructor
  · intro env stream dir hot p hp
    rcases hcv : convertAll env dir (arrowFilesOfList (fileNames dir) hot) with ⟨d, o⟩
    cases o with
    | some e =>
      simp only [syncStream, hcv] at hp
      exact absurd hp (List.not_mem_nil p)
    | none =>
      simp only [syncStream, hcv] at hp
      obtain ⟨done, hdone⟩ :=
        uploadAll_uploads_shape env stream (parquetFilesOfList (fileNames d)) ⟨d, [], 0⟩
      rw [hdone] at hp
      simp only [List.nil_append] at hp
      obtain ⟨n, _, hn⟩ := List.mem_map.mp hp
      rw [← hn]
      rfl
  · intro a b c rest ha hb hc
    unfold replacen3
    apply String.ext
    rw [strData_mk]
    have hdot : ("." : String).data = ['.'] := rfl
    have hsl : ("/" : String).data = ['/'] := rfl
    simp only [String.data_append, hdot, hsl, List.append_assoc, List.cons_append,
      List.nil_append, List.singleton_append]
    rw [replacenDots_step a.data _ 2 ha, replacenDots_step b.data _ 1 hb,
      replacenDots_step c.data _ 0 hc, replacenDots_zero]

/-- Claim C5 witness: the key recorded for a concrete sync upload, and the
hierarchical reconstruction on a concrete flattened name. -/
theorem sync_upload_key_scheme_witness :
    ((syncStream tEnvOk "s" tDirParquet "h").uploads.headD ("", "")).1
      = "s" ++ "/" ++ replacen3
        ((syncStream tEnvOk "s" tDirParquet "h").uploads.headD ("", "")).2 ∧
    replacen3 ("date=x" ++ "." ++ "hour=1" ++ "." ++ "minute=2" ++ "." ++ "host.data.parquet")
      = "date=x" ++ "/" ++ "hour=1" ++ "/" ++ "minute=2" ++ "/" ++ "host.data.parquet" :=
  ⟨sync_upload_key_scheme.1 tEnvOk "s" tDirParquet "h" _ (by decide),
   sync_upload_key_scheme.2 "date=x" "hour=1" "minute=2" "host.data.parquet"
     (by decide) (by decide) (by decide)⟩

/-- Claim C6: when the sync pass decodes a local segment file, a
structural/header decode failure aborts that file's processing with the
Arrow error and makes the whole pass fail, while a per-record decode
failure causes only that record to be dropped — the conversion succeeds and
the produced columnar file holds exactly the remaining records. -/
theorem decode_failure_granularity (env : SyncEnv) (hfs : env.fsOk) :
    (∀ (stream : String) (dir : LocalDir) (n : String) (seg : ArrowSegment) (hot : String),
      lookupFile dir n = some (.arrows seg) → seg.headerOk = false →
      n ∈ arrowFilesOfList (fileNames dir) hot →
      convertFile env dir n = (dir, some .Arrow) ∧
      ((syncStream env stream dir hot).err).isSome = true) ∧
    (∀ (dir : LocalDir) (n : String) (pre post : List Record) (msg : String),
      lookupFile dir n
          = some (.arrows ⟨true, pre.map .ok ++ .error msg :: post.map .ok⟩) →
      extension n = some "arrows" →
      (convertFile env dir n).2 = none ∧
      lookupFile (convertFile env dir n).1 (setExtension n "parquet")
        = some (.parquet (pre ++ post))) := by
  obtain ⟨ho, hc, hw, hr⟩ := hfs
  constructor
  · intro stream dir n seg hot hl hb hmem
    have hfile := convertFile_bad_header env (ho n) hl hb
    have hall : ((convertAll env dir (arrowFilesOfList (fileNames dir) hot)).2).isSome
        = true := by
      refine convertAll_err_of_file_err env _ dir n hmem ?_
      rw [hfile]
      rfl
    refine ⟨hfile, ?_⟩
    rcases hcv : convertAll env dir (arrowFilesOfList (fileNames dir) hot) with ⟨d, o⟩
    rw [hcv] at hall
    cases o with
    | none => simp at hall
    | some e => simp [syncStream, hcv]
  · intro dir n pre post msg hl hext
    have hconv : convertFile env dir n
        = (removeFile (putFile (putFile dir (setExtension n "parquet") (.parquet []))
            (setExtension n "parquet")
            (.parquet ((pre.map (Except.ok : Record → Except String Record)
              ++ .error msg :: post.map Except.ok).filterMap Except.toOption))) n,
          none) := by
      simp [convertFile, ho n, hl, hc, hw, hr]
    rw [hconv]
    refine ⟨rfl, ?_⟩
    have hpn := setExtension_parquet_ne hext
    rw [lookupFile_remove_ne _ hpn, lookupFile_put_self, filterMap_records]

def tDirBadHeader : LocalDir := [("bad.data.arrows", .arrows ⟨false, []⟩)]

def tDirMixed : LocalDir :=
  [("g.data.arrows", .arrows ⟨true, [.ok [1], .error "malformed", .ok [2]]⟩)]

/-- Claim C6 witness: a concrete bad-header file makes the pass fail with
the Arrow error; a concrete malformed record is dropped while its
neighbors survive into the columnar file. -/
theorem decode_failure_granularity_witness :
    (convertFile tEnvOk tDirBadHeader "bad.data.arrows"
      = (tDirBadHeader, some .Arrow)) ∧
    ((syncStream tEnvOk "s" tDirBadHeader "h").err).isSome = true ∧
    (convertFile tEnvOk tDirMixed "g.data.arrows").2 = none ∧
    lookupFile (convertFile tEnvOk tDirMixed "g.data.arrows").1 "g.data.parquet"
      = some (.parquet [[1], [2]]) := by
  have hfs : tEnvOk.fsOk := ⟨fun _ => rfl, fun _ => rfl, fun _ => rfl, fun _ => rfl⟩
  have ha := (decode_failure_granularity tEnvOk hfs).1 "s" tDirBadHeader "bad.data.arrows"
    ⟨false, []⟩ "h" rfl rfl (by decide)
  have hb := (decode_failure_granularity tEnvOk hfs).2 tDirMixed "g.data.arrows"
    [[1]] [[2]] "malformed" rfl (by decide)
  exact ⟨ha.1, ha.2, hb.1, hb.2⟩

/-- Claim C9: filename_by_time is determined by the date, the hour, the
minute bucket and the host: two invocations with times falling in the same
minute bucket on the same host produce the identical filename string. -/
theorem filename_by_time_same_bucket_deterministic (host : String)
    (t1 t2 : NaiveDateTime) (hd : t1.date = t2.date) (hh : t1.hour = t2.hour)
    (hm : t1.minute / OBJECT_STORE_DATA_GRANULARITY * OBJECT_STORE_DATA_GRANULARITY
        = t2.minute / OBJECT_STORE_DATA_GRANULARITY * OBJECT_STORE_DATA_GRANULARITY) :
    filename_by_time host t1 = filename_by_time host t2 := by
  simp [filename_by_time, minuteToPfx, hd, hh, hm]

/-- Claim C9 witness: two instants in the same minute bucket (differing in
seconds) yield the identical filename. -/
theorem filename_by_time_deterministic_witness :
    filename_by_time "myhost" ⟨"2022-10-01", 5, 30, 7⟩
      = filename_by_time "myhost" ⟨"2022-10-01", 5, 30, 59⟩ :=
  filename_by_time_same_bucket_deterministic "myhost" _ _ rfl rfl rfl

end Parseable
